import Mathlib

/-!
Verification of the masscan web scanner orchestrator
(`src/Masscan_Webscanner.py`) against its natural-language specification.

The Python source is shallowly embedded below: pure computations become Lean
functions, filesystem state becomes an explicit map from path strings to lists
of lines, the external scanner and page-renderer collaborators become oracle
parameters, and Python exceptions become `Except` / explicit outcome records.
Strings are modelled as Lean `String` / `List Char`; text files are modelled as
lists of newline-terminated logical lines.
-/

namespace MasscanWeb

theorem str_data_append (a b : String) : (a ++ b).data = a.data ++ b.data := rfl

theorem str_mk_data (l : List Char) : (String.mk l).data = l := rfl

/-! ## Decimal rendering of numbers (model of Python `str(int)`) -/

/-- Little-endian decimal digits of `n`, computed with explicit fuel so that it
reduces by kernel evaluation; `digitsRevFuel n n` is correct for every `n`. -/
def digitsRevFuel : Nat → Nat → List Nat
  | 0, _ => []
  | _ + 1, 0 => []
  | fuel + 1, n + 1 => (n + 1) % 10 :: digitsRevFuel fuel ((n + 1) / 10)

/-- Value of a little-endian decimal digit list. -/
def digitsVal : List Nat → Nat
  | [] => 0
  | d :: ds => d + 10 * digitsVal ds

/-- Model of Python `str` on a natural number: most-significant digit first,
`"0"` for zero. -/
def decimalRepr (n : Nat) : List Char :=
  if n = 0 then ['0'] else ((digitsRevFuel n n).map Nat.digitChar).reverse

def strOfNat (n : Nat) : String := ⟨decimalRepr n⟩

/-- Model of Python `str` on an integer. -/
def strOfInt (i : Int) : String :=
  if i < 0 then "-" ++ strOfNat i.natAbs else strOfNat i.natAbs

theorem digitsVal_digitsRevFuel (fuel n : Nat) (h : n ≤ fuel) :
    digitsVal (digitsRevFuel fuel n) = n := by
  induction fuel generalizing n with
  | zero => interval_cases n; rfl
  | succ f ih =>
    cases n with
    | zero => rfl
    | succ m =>
      have hdiv : (m + 1) / 10 ≤ f := by
        have : (m + 1) / 10 < m + 1 := Nat.div_lt_self (Nat.succ_pos m) (by omega)
        omega
      simp only [digitsRevFuel, digitsVal, ih _ hdiv]
      omega

theorem digitsRevFuel_lt_ten (fuel n : Nat) :
    ∀ d ∈ digitsRevFuel fuel n, d < 10 := by
  induction fuel generalizing n with
  | zero => intro d hd; simp [digitsRevFuel] at hd
  | succ f ih =>
    cases n with
    | zero => intro d hd; simp [digitsRevFuel] at hd
    | succ m =>
      intro d hd
      simp only [digitsRevFuel, List.mem_cons] at hd
      rcases hd with h | h
      · omega
      · exact ih _ d h

theorem digitChar_inj_of_lt (a b : Nat) (ha : a < 10) (hb : b < 10)
    (h : Nat.digitChar a = Nat.digitChar b) : a = b := by
  interval_cases a <;> interval_cases b <;> simp_all [Nat.digitChar]

theorem map_digitChar_inj (l₁ l₂ : List Nat) (h₁ : ∀ d ∈ l₁, d < 10)
    (h₂ : ∀ d ∈ l₂, d < 10)
    (h : l₁.map Nat.digitChar = l₂.map Nat.digitChar) : l₁ = l₂ := by
  induction l₁ generalizing l₂ with
  | nil => cases l₂ <;> simp_all
  | cons a t ih =>
    cases l₂ with
    | nil => simp_all
    | cons b t₂ =>
      simp only [List.map_cons, List.cons.injEq] at h
      have ha : a = b := digitChar_inj_of_lt a b (h₁ a (by simp)) (h₂ b (by simp)) h.1
      have ht : t = t₂ := ih t₂ (fun d hd => h₁ d (List.mem_cons_of_mem a hd))
        (fun d hd => h₂ d (List.mem_cons_of_mem b hd)) h.2
      simp [ha, ht]

theorem decimalRepr_inj (n m : Nat) (h : decimalRepr n = decimalRepr m) : n = m := by
  by_cases hn : n = 0 <;> by_cases hm : m = 0
  · omega
  · exfalso
    rw [decimalRepr, decimalRepr, if_pos hn, if_neg hm] at h
    have hmap : (digitsRevFuel m m).map Nat.digitChar = ['0'] := by
      have h' := congrArg List.reverse h
      simp only [List.reverse_reverse] at h'
      simpa using h'.symm
    have hd : digitsRevFuel m m = [0] :=
      map_digitChar_inj (digitsRevFuel m m) [0] (digitsRevFuel_lt_ten m m)
        (by decide) (hmap.trans (by decide))
    have hval := digitsVal_digitsRevFuel m m (Nat.le_refl m)
    rw [hd] at hval
    simp [digitsVal] at hval
    omega
  · exfalso
    rw [decimalRepr, decimalRepr, if_neg hn, if_pos hm] at h
    have hmap : (digitsRevFuel n n).map Nat.digitChar = ['0'] := by
      have h' := congrArg List.reverse h
      simp only [List.reverse_reverse] at h'
      simpa using h'
    have hd : digitsRevFuel n n = [0] :=
      map_digitChar_inj (digitsRevFuel n n) [0] (digitsRevFuel_lt_ten n n)
        (by decide) (hmap.trans (by decide))
    have hval := digitsVal_digitsRevFuel n n (Nat.le_refl n)
    rw [hd] at hval
    simp [digitsVal] at hval
    omega
  · rw [decimalRepr, decimalRepr, if_neg hn, if_neg hm] at h
    have h' := List.reverse_injective h
    have hdl := map_digitChar_inj _ _ (digitsRevFuel_lt_ten n n) (digitsRevFuel_lt_ten m m) h'
    calc n = digitsVal (digitsRevFuel n n) := (digitsVal_digitsRevFuel n n (Nat.le_refl n)).symm
    _ = digitsVal (digitsRevFuel m m) := by rw [hdl]
    _ = m := digitsVal_digitsRevFuel m m (Nat.le_refl m)

theorem strOfNat_inj (n m : Nat) (h : strOfNat n = strOfNat m) : n = m :=
  decimalRepr_inj n m (congrArg String.data h)

theorem decimalRepr_ne_nil (n : Nat) : decimalRepr n ≠ [] := by
  unfold decimalRepr
  by_cases hn : n = 0
  · simp [hn]
  · simp only [if_neg hn, ne_eq, List.reverse_eq_nil_iff, List.map_eq_nil_iff]
    cases n with
    | zero => omega
    | succ m => simp [digitsRevFuel]

theorem decimalRepr_no_dash (n : Nat) : ∀ c ∈ decimalRepr n, c ≠ '-' := by
  have hten : ∀ d, d < 10 → Nat.digitChar d ≠ '-' := by decide
  intro c hc
  unfold decimalRepr at hc
  by_cases hn : n = 0
  · simp [hn] at hc; simp [hc]
  · simp only [if_neg hn, List.mem_reverse, List.mem_map] at hc
    obtain ⟨d, hd, hdc⟩ := hc
    rw [← hdc]
    exact hten d (digitsRevFuel_lt_ten n n d hd)

theorem strOfInt_inj (i j : Int) (h : strOfInt i = strOfInt j) : i = j := by
  by_cases hi : i < 0 <;> by_cases hj : j < 0
  · rw [strOfInt, strOfInt, if_pos hi, if_pos hj] at h
    have hdata := congrArg String.data h
    simp only [str_data_append, strOfNat, str_mk_data] at hdata
    have : i.natAbs = j.natAbs :=
      decimalRepr_inj _ _ (List.append_cancel_left hdata)
    omega
  · exfalso
    rw [strOfInt, strOfInt, if_pos hi, if_neg hj] at h
    have hdata := congrArg String.data h
    simp only [str_data_append, strOfNat, str_mk_data] at hdata
    have hmem : '-' ∈ decimalRepr j.natAbs := by
      rw [← hdata]
      exact List.mem_append_left _ (by decide)
    exact decimalRepr_no_dash _ '-' hmem rfl
  · exfalso
    rw [strOfInt, strOfInt, if_neg hi, if_pos hj] at h
    have hdata := congrArg String.data h
    simp only [str_data_append, strOfNat, str_mk_data] at hdata
    have hmem : '-' ∈ decimalRepr i.natAbs := by
      rw [hdata]
      exact List.mem_append_left _ (by decide)
    exact decimalRepr_no_dash _ '-' hmem rfl
  · rw [strOfInt, strOfInt, if_neg hi, if_neg hj] at h
    have hdata := congrArg String.data h
    simp only [strOfNat, str_mk_data] at hdata
    have : i.natAbs = j.natAbs := decimalRepr_inj _ _ hdata
    omega

/-! ## IPv6RangeSplitter

Embedding of the `IPv6RangeSplitter` class.  A parsed network
(`ipaddress.ip_network(..., strict=False)`) is a version (4 or 6), a network
address and a prefix length; `strict=False` zeroes the host bits, so the
parsed address is a multiple of the block size.  The claims quantify over
valid (successfully parsed) ranges, so the `ValueError` branches of the
source, which return the input unchanged, are outside their scope.
-/

structure Net where
  version : Nat
  addr : Nat
  prefixlen : Nat
deriving DecidableEq, Repr

/-- `self.max_range_bits` / `self.max_ipv6_bits` of `IPv6RangeSplitter.__init__`
(defaults 63 and 32). -/
structure IPv6RangeSplitter where
  max_range_bits : Nat := 63
  max_ipv6_bits : Nat := 32
deriving DecidableEq, Repr

/-- `IPv6RangeSplitter.calculate_address_bits` on a successfully parsed
network: `128 - prefixlen` for IPv6, `32 - prefixlen` otherwise. -/
def calculate_address_bits (n : Net) : Nat :=
  if n.version = 6 then 128 - n.prefixlen else 32 - n.prefixlen

/-- `IPv6RangeSplitter.is_range_too_large`. -/
def is_range_too_large (s : IPv6RangeSplitter) (n : Net) : Bool :=
  s.max_range_bits < calculate_address_bits n

/-- `IPv6RangeSplitter.should_split_ipv6` on a parsed network. -/
def should_split_ipv6 (s : IPv6RangeSplitter) (n : Net) : Bool :=
  n.version = 6 && s.max_ipv6_bits < 128 - n.prefixlen

/-- Address width of the network's family (128 for IPv6, 32 for IPv4). -/
def Net.width (n : Net) : Nat := if n.version = 6 then 128 else 32

/-- `net.subnets(new_prefix=p)`: the equal-sized subnets of `n` at prefix
length `p`, lowest address first, as produced by `ipaddress`. -/
def subnetsAt (n : Net) (new_prefixlen : Nat) : List Net :=
  (List.range (2 ^ (new_prefixlen - n.prefixlen))).map
    (fun i => ⟨n.version, n.addr + i * 2 ^ (n.width - new_prefixlen), new_prefixlen⟩)

/-- `IPv6RangeSplitter.split_ipv6_range` on a parsed network. -/
def split_ipv6_range (s : IPv6RangeSplitter) (n : Net) : List Net :=
  if n.version ≠ 6 then [n]
  else if 128 - n.prefixlen ≤ s.max_ipv6_bits then [n]
  else subnetsAt n (128 - s.max_ipv6_bits)

/-- `IPv6RangeSplitter.process_range` on a parsed network. -/
def process_range (s : IPv6RangeSplitter) (n : Net) : List Net :=
  if is_range_too_large s n then split_ipv6_range s n
  else if should_split_ipv6 s n then split_ipv6_range s n
  else [n]

/-- Membership of an address in a network's address block. -/
def inNet (n : Net) (a : Nat) : Prop :=
  n.addr ≤ a ∧ a < n.addr + 2 ^ (n.width - n.prefixlen)

instance (n : Net) (a : Nat) : Decidable (inNet n a) := by
  unfold inNet; infer_instance

theorem process_range_eq_subnets (s : IPv6RangeSplitter) (n : Net)
    (h6 : n.version = 6) (hU : s.max_ipv6_bits < 128 - n.prefixlen) :
    process_range s n = subnetsAt n (128 - s.max_ipv6_bits) := by
  have hsplit : split_ipv6_range s n = subnetsAt n (128 - s.max_ipv6_bits) := by
    rw [split_ipv6_range, if_neg (by simp [h6]), if_neg (by omega)]
  rw [process_range]
  by_cases hL : is_range_too_large s n = true
  · rw [if_pos hL, hsplit]
  · rw [if_neg hL, if_pos (by simp [should_split_ipv6, h6]; omega), hsplit]

theorem subnetsAt_length (n : Net) (P : Nat) :
    (subnetsAt n P).length = 2 ^ (P - n.prefixlen) := by
  simp [subnetsAt]

theorem mem_subnetsAt (n : Net) (P : Nat) (m : Net) :
    m ∈ subnetsAt n P ↔ ∃ i < 2 ^ (P - n.prefixlen),
      m = ⟨n.version, n.addr + i * 2 ^ (n.width - P), P⟩ := by
  simp only [subnetsAt, List.mem_map, List.mem_range]
  constructor
  · rintro ⟨i, hi, rfl⟩; exact ⟨i, hi, rfl⟩
  · rintro ⟨i, hi, rfl⟩; exact ⟨i, hi, rfl⟩

/-- Membership in a sub-block built at prefix `P` over `n`'s address family,
with the structure projections reduced. -/
theorem inNet_mk (n : Net) (x P a : Nat) :
    inNet ⟨n.version, x, P⟩ a ↔ x ≤ a ∧ a < x + 2 ^ (n.width - P) :=
  Iff.rfl

theorem subnetsAt_sorted (n : Net) (P : Nat) :
    (subnetsAt n P).Pairwise (fun m₁ m₂ => m₁.addr < m₂.addr) := by
  have hB : 0 < 2 ^ (n.width - P) := pow_pos (by norm_num) _
  rw [subnetsAt, List.pairwise_map]
  apply (List.pairwise_lt_range _).imp
  intro i j hij
  exact Nat.add_lt_add_left ((Nat.mul_lt_mul_right hB).mpr hij) n.addr

theorem subnetsAt_cover (n : Net) (P : Nat) (hpP : n.prefixlen ≤ P) (hPw : P ≤ n.width) :
    ∀ a : Nat, inNet n a ↔ ∃ m ∈ subnetsAt n P, inNet m a := by
  have hB : 0 < 2 ^ (n.width - P) := pow_pos (by norm_num) _
  have hexp : (P - n.prefixlen) + (n.width - P) = n.width - n.prefixlen := by omega
  intro a
  constructor
  · rintro ⟨h1, h2⟩
    have h2' : a - n.addr < 2 ^ (P - n.prefixlen) * 2 ^ (n.width - P) := by
      rw [← pow_add, hexp]; omega
    refine ⟨⟨n.version, n.addr + (a - n.addr) / 2 ^ (n.width - P) * 2 ^ (n.width - P), P⟩,
      ?_, ?_⟩
    · rw [mem_subnetsAt]
      exact ⟨(a - n.addr) / 2 ^ (n.width - P), (Nat.div_lt_iff_lt_mul hB).mpr h2', rfl⟩
    · rw [inNet_mk]
      have hdm := Nat.div_add_mod (a - n.addr) (2 ^ (n.width - P))
      have hmod : (a - n.addr) % 2 ^ (n.width - P) < 2 ^ (n.width - P) :=
        Nat.mod_lt _ hB
      have hmul : (a - n.addr) / 2 ^ (n.width - P) * 2 ^ (n.width - P) =
          2 ^ (n.width - P) * ((a - n.addr) / 2 ^ (n.width - P)) := Nat.mul_comm _ _
      omega
  · rintro ⟨m, hm, hin⟩
    rw [mem_subnetsAt] at hm
    obtain ⟨i, hi, rfl⟩ := hm
    rw [inNet_mk] at hin
    have hstep : (i + 1) * 2 ^ (n.width - P) ≤ 2 ^ (P - n.prefixlen) * 2 ^ (n.width - P) :=
      Nat.mul_le_mul_right _ (by omega)
    rw [Nat.succ_mul, ← pow_add, hexp] at hstep
    constructor
    · omega
    · omega

theorem subnetsAt_disjoint (n : Net) (P : Nat) :
    (subnetsAt n P).Pairwise (fun m₁ m₂ => ∀ a : Nat, ¬(inNet m₁ a ∧ inNet m₂ a)) := by
  rw [subnetsAt, List.pairwise_map]
  apply (List.pairwise_lt_range _).imp
  intro i j hij a ha
  rw [inNet_mk, inNet_mk] at ha
  obtain ⟨⟨_, h2⟩, ⟨h3, _⟩⟩ := ha
  have hstep : (i + 1) * 2 ^ (n.width - P) ≤ j * 2 ^ (n.width - P) :=
    Nat.mul_le_mul_right _ (by omega)
  rw [Nat.succ_mul] at hstep
  omega

/-- **C1, amended** — the code splits an IPv6 range exactly when its host-bit
count exceeds the user limit `max_ipv6_bits` (`U`), and the split is governed
by `U` alone, not by `min(H, U)`: for every valid IPv6 range with
`bits = 128 - prefixlen > U`, `process_range` returns the `2 ^ (bits - U)`
sub-ranges at prefix `128 - U` (each of host-bit width exactly `U`), in
ascending numeric order, exactly partitioning the original address space with
no overlap and no gaps.  (IPv6 ranges with `bits ≤ U` — even when
`bits > max_range_bits` — and all IPv4 ranges are returned unchanged, so the
hard limit `H = max_range_bits` never bounds the result; see the
counterexample.) -/
theorem claim_C1_amended (s : IPv6RangeSplitter) (n : Net)
    (h6 : n.version = 6) (hU : s.max_ipv6_bits < 128 - n.prefixlen) :
    (process_range s n).length = 2 ^ ((128 - n.prefixlen) - s.max_ipv6_bits) ∧
    (∀ m ∈ process_range s n, m.version = 6 ∧ m.prefixlen = 128 - s.max_ipv6_bits ∧
      calculate_address_bits m = s.max_ipv6_bits) ∧
    (process_range s n).Pairwise (fun m₁ m₂ => m₁.addr < m₂.addr) ∧
    (∀ a : Nat, inNet n a ↔ ∃ m ∈ process_range s n, inNet m a) ∧
    (process_range s n).Pairwise (fun m₁ m₂ => ∀ a : Nat, ¬(inNet m₁ a ∧ inNet m₂ a)) := by
  have hw : n.width = 128 := by simp [Net.width, h6]
  have hpP : n.prefixlen ≤ 128 - s.max_ipv6_bits := by omega
  have hPw : 128 - s.max_ipv6_bits ≤ n.width := by omega
  rw [process_range_eq_subnets s n h6 hU]
  refine ⟨?_, ?_, ?_, ?_, ?_⟩
  · rw [subnetsAt_length]; congr 1; omega
  · intro m hm
    rw [mem_subnetsAt] at hm
    obtain ⟨i, hi, rfl⟩ := hm
    refine ⟨h6, rfl, ?_⟩
    simp only [calculate_address_bits, h6, if_pos]
    omega
  · exact subnetsAt_sorted n _
  · exact subnetsAt_cover n _ hpP hPw
  · exact subnetsAt_disjoint n _

/-- Witness for C1 (amended): the spec's own test vector `::/120` with user
limit 4 splits into 16 subnets of `/124`; the conclusion of the amended
theorem holds at this instance. -/
theorem claim_C1_amended_witness :
    (process_range ⟨63, 4⟩ ⟨6, 0, 120⟩).length = 2 ^ ((128 - 120) - 4) ∧
    (∀ m ∈ process_range ⟨63, 4⟩ ⟨6, 0, 120⟩, m.version = 6 ∧ m.prefixlen = 128 - 4 ∧
      calculate_address_bits m = 4) ∧
    (process_range ⟨63, 4⟩ ⟨6, 0, 120⟩).Pairwise (fun m₁ m₂ => m₁.addr < m₂.addr) ∧
    (∀ a : Nat, inNet ⟨6, 0, 120⟩ a ↔ ∃ m ∈ process_range ⟨63, 4⟩ ⟨6, 0, 120⟩, inNet m a) ∧
    (process_range ⟨63, 4⟩ ⟨6, 0, 120⟩).Pairwise
      (fun m₁ m₂ => ∀ a : Nat, ¬(inNet m₁ a ∧ inNet m₂ a)) :=
  claim_C1_amended ⟨63, 4⟩ ⟨6, 0, 120⟩ rfl (by decide)

/-- **C1, counterexample** — with the scanner hard limit `H = 63`
(`max_range_bits`, the constructor default used by `MasscanRunner`) and a user
limit `U = 100 > H`, the IPv6 range `::/64` has `bits = 64 > min(H, U) = 63`,
so the claim requires `2 ^ (64 - 63) = 2` sub-ranges of width at most 63; but
`process_range` enters `split_ipv6_range`, finds `bits = 64 ≤ 100 = U`, and
returns the range unchanged: one sub-range of width 64. -/
theorem claim_C1_counterexample :
    min (63 : Nat) 100 < calculate_address_bits ⟨6, 0, 64⟩ ∧
    process_range ⟨63, 100⟩ ⟨6, 0, 64⟩ = [⟨6, 0, 64⟩] ∧
    (process_range ⟨63, 100⟩ ⟨6, 0, 64⟩).length ≠
      2 ^ (calculate_address_bits ⟨6, 0, 64⟩ - min 63 100) ∧
    ∃ m ∈ process_range ⟨63, 100⟩ ⟨6, 0, 64⟩,
      min (63 : Nat) 100 < calculate_address_bits m := by
  refine ⟨by decide, by decide, by decide, ⟨6, 0, 64⟩, by decide, by decide⟩

/-- **C10, confirmed** — a valid range whose host-bit count is at most both the
hard scanner limit `max_range_bits` and the user limit `max_ipv6_bits` is
returned unchanged as a single-element list. -/
theorem claim_C10 (s : IPv6RangeSplitter) (n : Net)
    (hH : calculate_address_bits n ≤ s.max_range_bits)
    (hU : calculate_address_bits n ≤ s.max_ipv6_bits) :
    process_range s n = [n] := by
  have h1 : ¬(is_range_too_large s n = true) := by
    simp only [is_range_too_large, decide_eq_true_eq, not_lt]
    exact hH
  have h2 : ¬(should_split_ipv6 s n = true) := by
    simp only [should_split_ipv6, Bool.and_eq_true, decide_eq_true_eq, not_and]
    intro h6
    simp only [calculate_address_bits, h6] at hU
    simp only [if_pos] at hU
    omega
  rw [process_range, if_neg h1, if_neg h2]

/-- Witness for C10: the IPv4 range `10.0.0.0/24` (8 host bits) under the
default limits `H = 63`, `U = 32` is returned unchanged. -/
theorem claim_C10_witness :
    calculate_address_bits ⟨4, 0x0A000000, 24⟩ ≤ (63 : Nat) ∧
    calculate_address_bits ⟨4, 0x0A000000, 24⟩ ≤ (32 : Nat) ∧
    process_range ⟨63, 32⟩ ⟨4, 0x0A000000, 24⟩ = [⟨4, 0x0A000000, 24⟩] :=
  ⟨by decide, by decide, claim_C10 ⟨63, 32⟩ ⟨4, 0x0A000000, 24⟩ (by decide) (by decide)⟩

/-! ## String primitives (models of the Python string operations used)

Tokens handled by the parser come from whitespace splitting, so the
leading/trailing-whitespace tolerance of Python `int()` can never trigger and
is not modelled; splitting is modelled on ASCII whitespace. -/

/-- ASCII whitespace, as recognised by `str.split()` on the scanner's output. -/
def isPySpace (c : Char) : Bool :=
  c = ' ' || c = '\t' || c = '\n' || c = '\r' || c = '\x0b' || c = '\x0c'

def splitWsStep (c : Char) (acc : List (List Char) × List Char) :
    List (List Char) × List Char :=
  if isPySpace c then
    if acc.2 = [] then acc else (acc.2 :: acc.1, [])
  else (acc.1, c :: acc.2)

def pySplitChars (s : List Char) : List (List Char) :=
  let r := s.foldr splitWsStep ([], [])
  if r.2 = [] then r.1 else r.2 :: r.1

/-- Model of `str.split()` with no argument: split on whitespace runs,
producing no empty tokens. -/
def pySplit (s : String) : List String := (pySplitChars s.data).map String.mk

def leadsWith : List Char → List Char → Bool
  | [], _ => true
  | _ :: _, [] => false
  | a :: as, b :: bs => a = b && leadsWith as bs

/-- Model of `str.startswith(p)`. -/
def startswith (p s : String) : Bool := leadsWith p.data s.data

/-- After an initial digit: a run of digits in which a single underscore may
stand between two digits (Python numeric-literal grouping accepted by
`int()`). -/
def digitsCore : List Char → Bool
  | [] => true
  | '_' :: c :: rest => c.isDigit && digitsCore rest
  | c :: rest => c.isDigit && digitsCore rest

def digitsValChars (l : List Char) : Nat :=
  l.foldl (fun a c => if c.isDigit then 10 * a + (c.toNat - '0'.toNat) else a) 0

def pyIntNat (l : List Char) : Option Nat :=
  match l with
  | [] => none
  | c :: rest =>
    if c.isDigit && digitsCore rest then some (digitsValChars (c :: rest)) else none

/-- Model of Python `int(s)` on a whitespace-free token: optional sign, then
digits with optional single grouping underscores; `none` models `ValueError`. -/
def pyInt (s : String) : Option Int :=
  match s.data with
  | '-' :: rest => (pyIntNat rest).map (fun n => -(n : Int))
  | '+' :: rest => (pyIntNat rest).map (fun n => (n : Int))
  | l => (pyIntNat l).map (fun n => (n : Int))

/-- `s.split('/')[0]`: the characters before the first `/` (the whole string
when there is none). -/
def beforeSlash (s : String) : String := ⟨s.data.takeWhile (fun c => c ≠ '/')⟩

/-- `Path(s).stem` for the names used here: strip the last dot-suffix. -/
def stem (s : String) : String :=
  if s.data.contains '.' then ⟨((s.data.reverse.dropWhile (fun c => c ≠ '.')).tail).reverse⟩
  else s

/-- Insertion step of the model of Python `sorted` on integers. -/
def insertSortedInt (x : Int) : List Int → List Int
  | [] => [x]
  | y :: ys => if x ≤ y then x :: y :: ys else y :: insertSortedInt x ys

/-- Model of Python `sorted` on a list of integers (ascending). -/
def pySorted (l : List Int) : List Int := l.foldr insertSortedInt []

/-- Model of `','.join`. -/
def joinComma : List String → String
  | [] => ""
  | [s] => s
  | s :: rest => s ++ "," ++ joinComma rest

/-! ## Filesystem model

A run's output tree, as a map from path name to file content (a list of
newline-terminated logical lines); `none` is an absent file. -/

def Fs := String → Option (List String)

def fsSet (fs : Fs) (p : String) (v : List String) : Fs :=
  fun q => if q = p then some v else fs q

def fsRemove (fs : Fs) (p : String) : Fs :=
  fun q => if q = p then none else fs q

/-! ## MasscanParser

`MasscanParser.parse` reads the list file, accumulates `hosts` (a dict from
host to its port list, insertion-ordered as in Python 3.7+), writes the
summary file, and returns the flattened `(ip, port)` pairs.  A missing list
file raises `FileNotFoundError`; a failed summary write raises out of `parse`
(there is no handler around it); both are modelled as `Except.error`. -/

inductive ParseErr
  | fileNotFound
  | summaryWriteFailed
deriving DecidableEq, Repr

/-- `hosts.setdefault(ip, []).append(port)` on an insertion-ordered dict. -/
def setdefaultAppend : List (String × List Int) → String → Int → List (String × List Int)
  | [], ip, p => [(ip, [p])]
  | (k, ps) :: rest, ip, p =>
    if k = ip then (k, ps ++ [p]) :: rest
    else (k, ps) :: setdefaultAppend rest ip p

/-- One iteration of the line loop in `MasscanParser.parse`; `pySplit line`
is the loop's `parts`, index 2 its `port_proto`, index 3 its `ip`. -/
def parseLine (hosts : List (String × List Int)) (line : String) :
    List (String × List Int) :=
  if startswith "open" line then
    if (pySplit line).length < 4 then hosts
    else
      match pyInt (beforeSlash ((pySplit line).getD 2 "")) with
      | none => hosts
      | some port => setdefaultAppend hosts ((pySplit line).getD 3 "") port
  else hosts

def buildHosts (lines : List String) : List (String × List Int) :=
  lines.foldl parseLine []

/-- `[(ip, port) for ip, ports in hosts.items() for port in ports]`. -/
def targetsOf (hosts : List (String × List Int)) : List (String × Int) :=
  (hosts.map (fun h => h.2.map (fun p => (h.1, p)))).flatten

/-- The content written to the summary file. -/
def summaryLinesOf (hosts : List (String × List Int)) (list_file now : String) :
    List String :=
  ["Scan time: " ++ now, "Source: " ++ list_file, ""] ++
    hosts.map (fun h => h.1 ++ ": open ports -> " ++ joinComma ((pySorted h.2).map strOfInt))

def summary_path (list_file : String) : String := stem list_file ++ "_summary.txt"

/-- `MasscanParser.parse`.  `summary_write_ok` is the oracle for whether
opening/writing the summary file succeeds; on success the returned pair also
carries the summary content written to `summary_path list_file`. -/
def parse (fs : Fs) (list_file : String) (summary_write_ok : Bool) (now : String) :
    Except ParseErr (List (String × Int) × List String) :=
  match fs list_file with
  | none => .error .fileNotFound
  | some lines =>
    let hosts := buildHosts lines
    if summary_write_ok then .ok (targetsOf hosts, summaryLinesOf hosts list_file now)
    else .error .summaryWriteFailed

instance {ε α : Type _} [DecidableEq ε] [DecidableEq α] : DecidableEq (Except ε α) :=
  fun x y =>
  match x, y with
  | .ok a, .ok b =>
    if h : a = b then isTrue (by rw [h])
    else isFalse (fun hh => by cases hh; exact h rfl)
  | .error a, .error b =>
    if h : a = b then isTrue (by rw [h])
    else isFalse (fun hh => by cases hh; exact h rfl)
  | .ok _, .error _ => isFalse (fun hh => Except.noConfusion hh)
  | .error _, .ok _ => isFalse (fun hh => Except.noConfusion hh)

/-- Claim-side per-line discovery rule, stated in the words of the amended
C4: a line is a discovery record exactly when it begins with the four
characters `open`; the record needs at least 4 whitespace-delimited tokens,
its port is the integer substring of the third token before `/`, and its host
is the fourth token; anything else yields no record. -/
def recordOfLine (line : String) : Option (String × Int) :=
  if startswith "open" line then
    if (pySplit line).length < 4 then none
    else
      match pyInt (beforeSlash ((pySplit line).getD 2 "")) with
      | none => none
      | some port => some ((pySplit line).getD 3 "", port)
  else none

/-- Grouping a record stream into the insertion-ordered per-host dict. -/
def groupRecords (recs : List (String × Int)) : List (String × List Int) :=
  recs.foldl (fun h r => setdefaultAppend h r.1 r.2) []

theorem parseLine_eq_record (hosts : List (String × List Int)) (line : String) :
    parseLine hosts line = match recordOfLine line with
      | none => hosts
      | some r => setdefaultAppend hosts r.1 r.2 := by
  unfold parseLine recordOfLine
  cases hsw : startswith "open" line
  · simp
  · by_cases hlen : (pySplit line).length < 4
    · simp [hlen]
    · simp only [if_neg hlen, if_pos rfl]
      cases hX : pyInt (beforeSlash ((pySplit line).getD 2 "")) <;> simp

theorem foldl_parseLine (lines : List String) (h0 : List (String × List Int)) :
    lines.foldl parseLine h0 =
      (lines.filterMap recordOfLine).foldl (fun h r => setdefaultAppend h r.1 r.2) h0 := by
  induction lines generalizing h0 with
  | nil => rfl
  | cons l rest ih =>
    rw [List.foldl_cons, parseLine_eq_record, List.filterMap_cons]
    cases hr : recordOfLine l
    · simp only [hr]
      exact ih h0
    · simp only [hr]
      rw [List.foldl_cons]
      exact ih _

/-- **C4, amended** — the parser treats a line as a discovery record exactly
when the line *begins with the substring* `open` (so e.g. a first token
`openX` also qualifies — see the counterexample), not when its first token
equals `open`; for each record it takes the port from the integer substring
of the third token before `/` and the host from the fourth token, and every
malformed record (fewer than 4 tokens, or non-numeric port) is skipped
without affecting the parse of the remaining lines: the host dict is exactly
the grouping of the per-line records. -/
theorem claim_C4_amended (lines : List String) (f now : String) :
    buildHosts lines = groupRecords (lines.filterMap recordOfLine) ∧
    parse (fsSet (fun _ => none) f lines) f true now =
      .ok (targetsOf (groupRecords (lines.filterMap recordOfLine)),
        summaryLinesOf (groupRecords (lines.filterMap recordOfLine)) f now) := by
  have h1 : buildHosts lines = groupRecords (lines.filterMap recordOfLine) :=
    foldl_parseLine lines []
  refine ⟨h1, ?_⟩
  unfold parse fsSet
  simp [h1]

/-- **C4, counterexample** — the line `openX tcp 80/tcp 10.0.0.1` has first
token `openX ≠ open`, yet `MasscanParser.parse` treats it as a discovery
record (because `line.startswith('open')` holds) and returns the target
`(10.0.0.1, 80)`; so a line is not a record "exactly when its first
whitespace-delimited token equals the literal `open`". -/
theorem claim_C4_counterexample :
    (pySplit "openX tcp 80/tcp 10.0.0.1").getD 0 "" ≠ "open" ∧
    (parse (fsSet (fun _ => none) "r.lst" ["openX tcp 80/tcp 10.0.0.1"])
        "r.lst" true "T").map Prod.fst = .ok [("10.0.0.1", 80)] := by
  refine ⟨by decide, by decide⟩

/-- **C6, amended** — a failure to write the per-range summary artifact
*does* abort target extraction: the summary write in `MasscanParser.parse`
has no exception handler, so when it fails `parse` propagates the error and
returns no targets; only when the write succeeds does it return the full
Target sequence extracted from the raw output (the error is then contained
per range by the orchestrator's handler, not by `parse`). -/
theorem claim_C6_amended (fs : Fs) (f now : String) (lines : List String)
    (h : fs f = some lines) :
    parse fs f false now = .error .summaryWriteFailed ∧
    parse fs f true now =
      .ok (targetsOf (buildHosts lines), summaryLinesOf (buildHosts lines) f now) := by
  unfold parse
  rw [h]
  simp

/-- Witness for C6 (amended) at a concrete one-record list file. -/
theorem claim_C6_amended_witness :
    (fsSet (fun _ => none) "r.lst" ["open tcp 80/tcp 10.0.0.5"]) "r.lst"
      = some ["open tcp 80/tcp 10.0.0.5"] ∧
    (parse (fsSet (fun _ => none) "r.lst" ["open tcp 80/tcp 10.0.0.5"]) "r.lst" false "T"
        = .error .summaryWriteFailed ∧
      parse (fsSet (fun _ => none) "r.lst" ["open tcp 80/tcp 10.0.0.5"]) "r.lst" true "T"
        = .ok (targetsOf (buildHosts ["open tcp 80/tcp 10.0.0.5"]),
            summaryLinesOf (buildHosts ["open tcp 80/tcp 10.0.0.5"]) "r.lst" "T")) :=
  ⟨by decide, claim_C6_amended _ "r.lst" "T" _ (by decide)⟩

/-- **C6, counterexample** — on a list file containing the single record
`open tcp 80/tcp 10.0.0.5`, a failing summary write makes `parse` raise
(`.error`) instead of returning the extracted target `(10.0.0.5, 80)` that a
successful write would return. -/
theorem claim_C6_counterexample :
    parse (fsSet (fun _ => none) "r.lst" ["open tcp 80/tcp 10.0.0.5"]) "r.lst" false "T"
      = .error .summaryWriteFailed ∧
    (parse (fsSet (fun _ => none) "r.lst" ["open tcp 80/tcp 10.0.0.5"]) "r.lst" true "T").map
      Prod.fst = .ok [("10.0.0.5", 80)] := by
  refine ⟨by decide, by decide⟩

/-- **C9, confirmed** — on raw output `open tcp 80/tcp 10.0.0.5` then
`open tcp 443/tcp 10.0.0.5`, `parse` returns exactly the targets
`[(10.0.0.5, 80), (10.0.0.5, 443)]` and writes a summary (at
`<stem>_summary.txt`) containing the line `10.0.0.5: open ports -> 80,443`,
ports sorted ascending. -/
theorem claim_C9 :
    parse (fsSet (fun _ => none) "range_1.lst"
        ["open tcp 80/tcp 10.0.0.5", "open tcp 443/tcp 10.0.0.5"]) "range_1.lst" true "T"
      = .ok ([("10.0.0.5", 80), ("10.0.0.5", 443)],
          ["Scan time: T", "Source: range_1.lst", "", "10.0.0.5: open ports -> 80,443"]) ∧
    summary_path "range_1.lst" = "range_1_summary.txt" := by
  refine ⟨by decide, by decide⟩

/-! ## MasscanRunner

The external scanner capability is an oracle `String → Option (List String)`:
for a range, `some lines` is the content the scanner writes to the `-oL`
output file on success, `none` a failed invocation (`CalledProcessError`,
caught and logged; no output file is produced).  `run` additionally returns
the ordered list of scanner invocations it performed, and the path of the
main output file it reports. -/

def ScannerOracle := String → Option (List String)

/-- `f"{prefix}_{timestamp}.lst"`. -/
def main_name (pfx ts : String) : String := pfx ++ "_" ++ ts ++ ".lst"

/-- `f"{prefix}_{timestamp}_part_{i+1}.lst"` (called with `i+1`). -/
def temp_name (pfx ts : String) (i : Nat) : String :=
  pfx ++ "_" ++ ts ++ "_part_" ++ strOfNat i ++ ".lst"

/-- `MasscanRunner.run_single_range`: dry-run logs and returns without
spawning anything; otherwise masscan is invoked (recorded in the second
component) and on success its output file appears in the filesystem. -/
def run_single_range (dry_run : Bool) (scanner : ScannerOracle)
    (ip_range _ports output_file : String) (fs : Fs) : Fs × List String :=
  if dry_run then (fs, [])
  else
    match scanner ip_range with
    | some content => (fsSet fs output_file content, [ip_range])
    | none => (fs, [ip_range])

/-- One iteration of the sub-range scan loop in `MasscanRunner.run`:
`rt = (sub_range, temp_file)`. -/
def scanStep (dry_run : Bool) (scanner : ScannerOracle) (ports : String)
    (acc : Fs × List String) (rt : String × String) : Fs × List String :=
  let r := run_single_range dry_run scanner rt.1 ports rt.2 acc.1
  (r.1, acc.2 ++ r.2)

/-- One iteration of the combine loop in `MasscanRunner.run`: if the temp
file exists, append its non-comment lines to the main output file and unlink
it. -/
def mergeStep (mainFile : String) (fs : Fs) (t : String) : Fs :=
  match fs t with
  | some content =>
    fsRemove
      (fsSet fs mainFile (((fs mainFile).getD []) ++
        content.filter (fun l => !startswith "#" l))) t
  | none => fs

/-- `MasscanRunner.run`.  `splitter` is `self.splitter.process_range` on range
strings; `ts` is the timestamp taken at the start, `done_ts` the
`datetime.now()` rendered into the completion header.  Returns the final
filesystem, the scanner invocations in order, and the main output path. -/
def run (dry_run : Bool) (scanner : ScannerOracle) (splitter : String → List String)
    (ip_range ports pfx ts done_ts : String) (fs : Fs) : Fs × List String × String :=
  let mainFile := main_name pfx ts
  let ranges := splitter ip_range
  if 1 < ranges.length then
    let pairs := ranges.enum.map (fun p => (p.2, temp_name pfx ts (p.1 + 1)))
    let scanned := pairs.foldl (scanStep dry_run scanner ports) (fs, [])
    if dry_run then (scanned.1, scanned.2, mainFile)
    else
      let headers := ["# Combined results from " ++ strOfNat ranges.length ++
          " sub-ranges of " ++ ip_range,
        "# Scan completed at " ++ done_ts]
      let fs2 := fsSet scanned.1 mainFile headers
      let fs3 := (pairs.map (fun x => x.2)).foldl (mergeStep mainFile) fs2
      (fs3, scanned.2, mainFile)
  else
    let r := run_single_range dry_run scanner ip_range ports mainFile fs
    (r.1, r.2, mainFile)

theorem scan_fold_dry (scanner : ScannerOracle) (ports : String)
    (l : List (String × String)) (x : Fs × List String) :
    l.foldl (scanStep true scanner ports) x = x := by
  induction l generalizing x with
  | nil => rfl
  | cons rt rest ih =>
    rw [List.foldl_cons]
    have hstep : scanStep true scanner ports x rt = x := by
      simp [scanStep, run_single_range]
    rw [hstep, ih]

theorem run_dry (scanner : ScannerOracle) (splitter : String → List String)
    (ip_range ports pfx ts done_ts : String) (fs : Fs) :
    run true scanner splitter ip_range ports pfx ts done_ts fs
      = (fs, [], main_name pfx ts) := by
  unfold run
  by_cases h : 1 < (splitter ip_range).length
  · simp [h, scan_fold_dry]
  · simp [h, run_single_range]

/-- **C2, amended** — in dry-run mode no scanner process is ever invoked and
the filesystem is untouched, but the scan step does *not* produce a usable
empty result: `run` returns the path of a main output file that was never
created, so the subsequent parse of that path fails with a
file-not-found error (which the orchestrator's per-range handler then
catches); the rest of the pipeline cannot run on the dry-run result. -/
theorem claim_C2_amended (scanner : ScannerOracle) (splitter : String → List String)
    (ip_range ports pfx ts done_ts now : String) (fs : Fs) :
    (run true scanner splitter ip_range ports pfx ts done_ts fs).2.1 = [] ∧
    (run true scanner splitter ip_range ports pfx ts done_ts fs).1 = fs ∧
    (fs (main_name pfx ts) = none →
      parse (run true scanner splitter ip_range ports pfx ts done_ts fs).1
        (run true scanner splitter ip_range ports pfx ts done_ts fs).2.2 true now
        = .error .fileNotFound) := by
  rw [run_dry]
  refine ⟨rfl, rfl, fun h => ?_⟩
  show parse fs (main_name pfx ts) true now = Except.error ParseErr.fileNotFound
  unfold parse
  rw [h]

/-- Witness for C2 (amended) at a concrete dry run over `10.0.0.0/24`. -/
theorem claim_C2_amended_witness :
    (run true (fun _ => some []) (fun r => [r]) "10.0.0.0/24" "80" "range_1" "TS" "TS2"
        (fun _ => none)).2.1 = [] ∧
    (run true (fun _ => some []) (fun r => [r]) "10.0.0.0/24" "80" "range_1" "TS" "TS2"
        (fun _ => none)).1 = (fun _ => none) ∧
    ((fun _ => none : Fs) (main_name "range_1" "TS") = none →
      parse (run true (fun _ => some []) (fun r => [r]) "10.0.0.0/24" "80" "range_1" "TS" "TS2"
          (fun _ => none)).1
        (run true (fun _ => some []) (fun r => [r]) "10.0.0.0/24" "80" "range_1" "TS" "TS2"
          (fun _ => none)).2.2 true "NOW"
        = .error .fileNotFound) :=
  claim_C2_amended (fun _ => some []) (fun r => [r]) "10.0.0.0/24" "80" "range_1" "TS" "TS2"
    "NOW" (fun _ => none)

/-- **C2, counterexample** — a concrete dry run on `10.0.0.0/24`: no scanner
invocation occurs, but no output file is created either (`run` reports path
`range_1_TS.lst`, absent from the filesystem), and the pipeline's next step —
parsing that path — fails with a file-not-found error instead of operating on
a Success-status result with empty raw output. -/
theorem claim_C2_counterexample :
    (run true (fun _ => some ["open tcp 80/tcp 10.0.0.5"]) (fun r => [r]) "10.0.0.0/24"
        "80" "range_1" "TS" "TS2" (fun _ => none)).2.1 = [] ∧
    (run true (fun _ => some ["open tcp 80/tcp 10.0.0.5"]) (fun r => [r]) "10.0.0.0/24"
        "80" "range_1" "TS" "TS2" (fun _ => none)).2.2 = "range_1_TS.lst" ∧
    (run true (fun _ => some ["open tcp 80/tcp 10.0.0.5"]) (fun r => [r]) "10.0.0.0/24"
        "80" "range_1" "TS" "TS2" (fun _ => none)).1 "range_1_TS.lst" = none ∧
    parse (run true (fun _ => some ["open tcp 80/tcp 10.0.0.5"]) (fun r => [r]) "10.0.0.0/24"
        "80" "range_1" "TS" "TS2" (fun _ => none)).1 "range_1_TS.lst" true "NOW"
      = .error .fileNotFound := by
  refine ⟨by decide, by decide, by decide, by decide⟩

theorem temp_name_inj (pfx ts : String) (i j : Nat)
    (h : temp_name pfx ts i = temp_name pfx ts j) : i = j := by
  unfold temp_name at h
  have hd := congrArg String.data h
  simp only [str_data_append, strOfNat, str_mk_data] at hd
  exact decimalRepr_inj i j (List.append_cancel_left (List.append_cancel_right hd))

theorem main_ne_temp (pfx ts : String) (i : Nat) :
    main_name pfx ts ≠ temp_name pfx ts i := by
  intro h
  have hd := congrArg (fun s => s.data.length) h
  simp [main_name, temp_name, str_data_append, strOfNat, str_mk_data,
    List.length_append] at hd

theorem scan_fold_invs (scanner : ScannerOracle) (ports : String)
    (l : List (String × String)) :
    ∀ (fs : Fs) (acc : List String),
      (l.foldl (scanStep false scanner ports) (fs, acc)).2 = acc ++ l.map (fun x => x.1) := by
  induction l with
  | nil => intro fs acc; simp
  | cons rt rest ih =>
    intro fs acc
    rw [List.foldl_cons]
    cases hsc : scanner rt.1 with
    | none =>
      have hstep : scanStep false scanner ports (fs, acc) rt = (fs, acc ++ [rt.1]) := by
        simp [scanStep, run_single_range, hsc]
      rw [hstep, ih]
      simp
    | some c =>
      have hstep : scanStep false scanner ports (fs, acc) rt
          = (fsSet fs rt.2 c, acc ++ [rt.1]) := by
        simp [scanStep, run_single_range, hsc]
      rw [hstep, ih]
      simp

theorem scan_fold_untouched (scanner : ScannerOracle) (ports : String)
    (l : List (String × String)) :
    ∀ (fs : Fs) (acc : List String) (p : String), p ∉ l.map (fun x => x.2) →
      (l.foldl (scanStep false scanner ports) (fs, acc)).1 p = fs p := by
  induction l with
  | nil => intro fs acc p _; rfl
  | cons rt rest ih =>
    intro fs acc p hp
    simp only [List.map_cons, List.mem_cons, not_or] at hp
    rw [List.foldl_cons]
    cases hsc : scanner rt.1 with
    | none =>
      have hstep : scanStep false scanner ports (fs, acc) rt = (fs, acc ++ [rt.1]) := by
        simp [scanStep, run_single_range, hsc]
      rw [hstep, ih _ _ p hp.2]
    | some c =>
      have hstep : scanStep false scanner ports (fs, acc) rt
          = (fsSet fs rt.2 c, acc ++ [rt.1]) := by
        simp [scanStep, run_single_range, hsc]
      rw [hstep, ih _ _ p hp.2]
      simp [fsSet, hp.1]

theorem scan_fold_lookup (scanner : ScannerOracle) (ports : String)
    (l : List (String × String)) :
    ∀ (fs : Fs) (acc : List String), (l.map (fun x => x.2)).Nodup →
      (∀ x ∈ l, fs x.2 = none) →
      ∀ x ∈ l, (l.foldl (scanStep false scanner ports) (fs, acc)).1 x.2 = scanner x.1 := by
  induction l with
  | nil => intro fs acc _ _ x hx; simp at hx
  | cons rt rest ih =>
    intro fs acc hnd hfr x hx
    simp only [List.map_cons, List.nodup_cons] at hnd
    rw [List.foldl_cons]
    rcases List.mem_cons.mp hx with rfl | hxr
    · cases hsc : scanner x.1 with
      | none =>
        have hstep : scanStep false scanner ports (fs, acc) x = (fs, acc ++ [x.1]) := by
          simp [scanStep, run_single_range, hsc]
        rw [hstep, scan_fold_untouched scanner ports rest fs _ x.2 hnd.1,
          hfr x (List.mem_cons_self _ _)]
      | some c =>
        have hstep : scanStep false scanner ports (fs, acc) x
            = (fsSet fs x.2 c, acc ++ [x.1]) := by
          simp [scanStep, run_single_range, hsc]
        rw [hstep, scan_fold_untouched scanner ports rest _ _ x.2 hnd.1]
        simp [fsSet, hsc]
    · cases hsc : scanner rt.1 with
      | none =>
        have hstep : scanStep false scanner ports (fs, acc) rt = (fs, acc ++ [rt.1]) := by
          simp [scanStep, run_single_range, hsc]
        rw [hstep]
        exact ih fs _ hnd.2 (fun y hy => hfr y (List.mem_cons_of_mem _ hy)) x hxr
      | some c =>
        have hstep : scanStep false scanner ports (fs, acc) rt
            = (fsSet fs rt.2 c, acc ++ [rt.1]) := by
          simp [scanStep, run_single_range, hsc]
        rw [hstep]
        refine ih _ _ hnd.2 (fun y hy => ?_) x hxr
        have hne : y.2 ≠ rt.2 := by
          intro he
          exact hnd.1 (by rw [← he]; exact List.mem_map_of_mem _ hy)
        simp [fsSet, hne, hfr y (List.mem_cons_of_mem _ hy)]

theorem merge_fold_untouched (mainFile : String) (l : List String) :
    ∀ (fs : Fs) (p : String), p ∉ l → p ≠ mainFile →
      (l.foldl (mergeStep mainFile) fs) p = fs p := by
  induction l with
  | nil => intro fs p _ _; rfl
  | cons t0 rest ih =>
    intro fs p hp hpm
    simp only [List.mem_cons, not_or] at hp
    rw [List.foldl_cons]
    have hstep : (mergeStep mainFile fs t0) p = fs p := by
      unfold mergeStep
      cases hft : fs t0
      · rfl
      · simp [fsRemove, fsSet, hp.1, hpm]
    rw [ih _ p hp.2 hpm, hstep]

theorem merge_fold_temps (mainFile : String) (l : List String) :
    ∀ (fs : Fs), l.Nodup → mainFile ∉ l →
      ∀ t ∈ l, (l.foldl (mergeStep mainFile) fs) t = none := by
  induction l with
  | nil => intro fs _ _ t ht; simp at ht
  | cons t0 rest ih =>
    intro fs hnd hm t ht
    rw [List.foldl_cons]
    rcases List.mem_cons.mp ht with rfl | htr
    · have h0 : (mergeStep mainFile fs t) t = none := by
        unfold mergeStep
        cases hft : fs t
        · exact hft
        · simp [fsRemove]
      have hnotin : t ∉ rest := (List.nodup_cons.mp hnd).1
      have hne : t ≠ mainFile := by
        intro he
        exact hm (by rw [← he]; exact List.mem_cons_self _ _)
      rw [merge_fold_untouched mainFile rest _ t hnotin hne, h0]
    · exact ih _ (List.nodup_cons.mp hnd).2
        (fun hmr => hm (List.mem_cons_of_mem _ hmr)) t htr

theorem merge_fold_main (mainFile : String) (l : List String) :
    ∀ (fs : Fs) (acc : List String), l.Nodup → mainFile ∉ l → fs mainFile = some acc →
      (l.foldl (mergeStep mainFile) fs) mainFile
        = some (acc ++ (l.map
            (fun t => ((fs t).getD []).filter (fun s => !startswith "#" s))).flatten) := by
  induction l with
  | nil => intro fs acc _ _ hmain; simpa using hmain
  | cons t0 rest ih =>
    intro fs acc hnd hm hmain
    have ht0m : t0 ≠ mainFile := by
      intro he
      exact hm (by rw [he]; exact List.mem_cons_self _ _)
    have hrestm : mainFile ∉ rest := fun h => hm (List.mem_cons_of_mem _ h)
    rw [List.foldl_cons]
    cases hft : fs t0 with
    | none =>
      have hstep : mergeStep mainFile fs t0 = fs := by
        unfold mergeStep
        rw [hft]
      rw [hstep, ih fs acc (List.nodup_cons.mp hnd).2 hrestm hmain]
      simp [hft]
    | some c =>
      have hstep : mergeStep mainFile fs t0
          = fsRemove (fsSet fs mainFile
              (acc ++ c.filter (fun s => !startswith "#" s))) t0 := by
        unfold mergeStep
        rw [hft, hmain]
        rfl
      rw [hstep]
      have hmain1 : (fsRemove (fsSet fs mainFile
          (acc ++ c.filter (fun s => !startswith "#" s))) t0) mainFile
          = some (acc ++ c.filter (fun s => !startswith "#" s)) := by
        simp [fsRemove, fsSet, Ne.symm ht0m]
      rw [ih _ _ (List.nodup_cons.mp hnd).2 hrestm hmain1]
      have hmapeq : rest.map (fun t => (((fsRemove (fsSet fs mainFile
            (acc ++ c.filter (fun s => !startswith "#" s))) t0) t).getD []).filter
              (fun s => !startswith "#" s))
          = rest.map (fun t => ((fs t).getD []).filter (fun s => !startswith "#" s)) := by
        apply List.map_congr_left
        intro t htr
        have hne0 : t ≠ t0 := by
          intro he
          exact (List.nodup_cons.mp hnd).1 (by rw [← he]; exact htr)
        have hnem : t ≠ mainFile := by
          intro he
          exact hm (by rw [← he]; exact List.mem_cons_of_mem _ htr)
        simp [fsRemove, fsSet, hne0, hnem]
      rw [hmapeq]
      simp [hft, List.append_assoc]

/-- Core behaviour of the N>1 branch of `MasscanRunner.run` over an arbitrary
list of `(sub_range, temp_file)` pairs with distinct temp names absent from a
fresh run directory. -/
theorem run_split_core (scanner : ScannerOracle) (ports mainFile : String)
    (pairs : List (String × String)) (fs : Fs) (headers : List String)
    (hnd : (pairs.map (fun x => x.2)).Nodup)
    (hm : mainFile ∉ pairs.map (fun x => x.2))
    (hfr : ∀ x ∈ pairs, fs x.2 = none) :
    (pairs.foldl (scanStep false scanner ports) (fs, [])).2 = pairs.map (fun x => x.1) ∧
    ((pairs.map (fun x => x.2)).foldl (mergeStep mainFile)
        (fsSet (pairs.foldl (scanStep false scanner ports) (fs, [])).1 mainFile headers))
        mainFile
      = some (headers ++ (pairs.map
          (fun x => ((scanner x.1).getD []).filter (fun s => !startswith "#" s))).flatten) ∧
    (∀ t ∈ pairs.map (fun x => x.2),
      ((pairs.map (fun x => x.2)).foldl (mergeStep mainFile)
        (fsSet (pairs.foldl (scanStep false scanner ports) (fs, [])).1 mainFile headers))
        t = none) ∧
    (∀ p, p ∉ pairs.map (fun x => x.2) → p ≠ mainFile →
      ((pairs.map (fun x => x.2)).foldl (mergeStep mainFile)
        (fsSet (pairs.foldl (scanStep false scanner ports) (fs, [])).1 mainFile headers))
        p = fs p) := by
  have hfs2main : (fsSet (pairs.foldl (scanStep false scanner ports) (fs, [])).1
      mainFile headers) mainFile = some headers := by
    simp [fsSet]
  have hfs2t : ∀ x ∈ pairs, (fsSet (pairs.foldl (scanStep false scanner ports) (fs, [])).1
      mainFile headers) x.2 = scanner x.1 := by
    intro x hx
    have hne : x.2 ≠ mainFile := by
      intro he
      exact hm (by rw [← he]; exact List.mem_map_of_mem _ hx)
    simp only [fsSet, if_neg hne]
    exact scan_fold_lookup scanner ports pairs fs [] hnd hfr x hx
  refine ⟨?_, ?_, ?_, ?_⟩
  · rw [scan_fold_invs]
    simp
  · rw [merge_fold_main mainFile (pairs.map (fun x => x.2)) _ headers hnd hm hfs2main]
    have hmap : (pairs.map (fun x => x.2)).map
        (fun t => (((fsSet (pairs.foldl (scanStep false scanner ports) (fs, [])).1
          mainFile headers) t).getD []).filter (fun s => !startswith "#" s))
        = pairs.map (fun x => ((scanner x.1).getD []).filter (fun s => !startswith "#" s)) := by
      rw [List.map_map]
      apply List.map_congr_left
      intro x hx
      simp only [Function.comp_apply]
      rw [hfs2t x hx]
    rw [hmap]
  · exact merge_fold_temps mainFile (pairs.map (fun x => x.2)) _ hnd hm
  · intro p hp hpm
    rw [merge_fold_untouched mainFile (pairs.map (fun x => x.2)) _ p hp hpm]
    simp only [fsSet, if_neg hpm]
    exact scan_fold_untouched scanner ports pairs fs [] p hp

/-- **C5, confirmed** — for a range split into N > 1 sub-ranges (non-dry run,
fresh run directory), `MasscanRunner.run` scans every sub-range sequentially
in sub-range order (the invocation list equals the sub-range list), the main
output file ends up holding the two merge header lines followed by the
concatenation, in sub-range order, of each sub-range output's lines with
every per-sub-range `#` comment/header line discarded — an order-preserving,
lossless merge of the well-formed (non-comment) lines — and every
intermediate per-sub-range output file is absent after the merge. -/
theorem claim_C5 (scanner : ScannerOracle) (splitter : String → List String)
    (ip_range ports pfx ts done_ts : String) (fs : Fs)
    (hN : 1 < (splitter ip_range).length)
    (hfresh : ∀ i, fs (temp_name pfx ts i) = none) :
    (run false scanner splitter ip_range ports pfx ts done_ts fs).2.1 = splitter ip_range ∧
    (run false scanner splitter ip_range ports pfx ts done_ts fs).1 (main_name pfx ts)
      = some (("# Combined results from " ++ strOfNat (splitter ip_range).length ++
            " sub-ranges of " ++ ip_range) ::
          ("# Scan completed at " ++ done_ts) ::
          ((splitter ip_range).map
            (fun r => ((scanner r).getD []).filter (fun l => !startswith "#" l))).flatten) ∧
    (∀ i, (run false scanner splitter ip_range ports pfx ts done_ts fs).1
      (temp_name pfx ts i) = none) := by
  have hinj : Function.Injective (fun i : Nat => temp_name pfx ts (i + 1)) := by
    intro a b h
    have := temp_name_inj pfx ts (a + 1) (b + 1) h
    omega
  have htempsEq : (((splitter ip_range).enum.map
        (fun p => (p.2, temp_name pfx ts (p.1 + 1)))).map (fun x => x.2))
      = (List.range (splitter ip_range).length).map (fun i => temp_name pfx ts (i + 1)) := by
    rw [List.map_map]
    conv_rhs => rw [← List.enum_map_fst (splitter ip_range), List.map_map]
    rfl
  have hnd : ((((splitter ip_range).enum.map
      (fun p => (p.2, temp_name pfx ts (p.1 + 1)))).map (fun x => x.2))).Nodup := by
    rw [htempsEq]
    exact (List.nodup_range _).map hinj
  have hm : main_name pfx ts ∉ (((splitter ip_range).enum.map
      (fun p => (p.2, temp_name pfx ts (p.1 + 1)))).map (fun x => x.2)) := by
    rw [htempsEq]
    intro hmem
    obtain ⟨j, _, he⟩ := List.mem_map.mp hmem
    exact main_ne_temp pfx ts (j + 1) he.symm
  have hfr : ∀ x ∈ (splitter ip_range).enum.map
      (fun p => (p.2, temp_name pfx ts (p.1 + 1))), fs x.2 = none := by
    intro x hx
    obtain ⟨p, _, rfl⟩ := List.mem_map.mp hx
    exact hfresh (p.1 + 1)
  have hpairsfst : ((splitter ip_range).enum.map
      (fun p => (p.2, temp_name pfx ts (p.1 + 1)))).map (fun x => x.1)
      = splitter ip_range := by
    rw [List.map_map]
    conv_rhs => rw [← List.enum_map_snd (splitter ip_range)]
    rfl
  have hmapg : ((splitter ip_range).enum.map
        (fun p => (p.2, temp_name pfx ts (p.1 + 1)))).map
        (fun x => ((scanner x.1).getD []).filter (fun s => !startswith "#" s))
      = (splitter ip_range).map
        (fun r => ((scanner r).getD []).filter (fun l => !startswith "#" l)) := by
    rw [List.map_map]
    conv_rhs => rw [← List.enum_map_snd (splitter ip_range), List.map_map]
    rfl
  obtain ⟨h1, h2, h3, h4⟩ := run_split_core scanner ports (main_name pfx ts)
    ((splitter ip_range).enum.map (fun p => (p.2, temp_name pfx ts (p.1 + 1)))) fs
    ["# Combined results from " ++ strOfNat (splitter ip_range).length ++
        " sub-ranges of " ++ ip_range,
      "# Scan completed at " ++ done_ts] hnd hm hfr
  unfold run
  simp only [if_pos hN, Bool.false_eq_true, reduceIte]
  refine ⟨h1.trans hpairsfst, h2.trans (by rw [hmapg]; simp), ?_⟩
  intro i
  by_cases hmem : temp_name pfx ts i ∈ (((splitter ip_range).enum.map
      (fun p => (p.2, temp_name pfx ts (p.1 + 1)))).map (fun x => x.2))
  · exact h3 _ hmem
  · exact (h4 (temp_name pfx ts i) hmem (main_ne_temp pfx ts i).symm).trans (hfresh i)

def W5scanner : ScannerOracle :=
  fun r => if r = "a" then some ["#x", "open tcp 80/tcp 10.0.0.5"] else none

def W5splitter : String → List String := fun _ => ["a", "b"]

def W5fs : Fs := fun _ => none

/-- Witness for C5 at a concrete two-sub-range split (one sub-range scan
fails and contributes nothing). -/
theorem claim_C5_witness :
    (run false W5scanner W5splitter "2001:db8::/32" "80" "range_1" "TS" "TS2" W5fs).2.1
      = W5splitter "2001:db8::/32" ∧
    (run false W5scanner W5splitter "2001:db8::/32" "80" "range_1" "TS" "TS2" W5fs).1
        (main_name "range_1" "TS")
      = some (("# Combined results from " ++
            strOfNat (W5splitter "2001:db8::/32").length ++
            " sub-ranges of " ++ "2001:db8::/32") ::
          ("# Scan completed at " ++ "TS2") ::
          ((W5splitter "2001:db8::/32").map
            (fun r => ((W5scanner r).getD []).filter (fun l => !startswith "#" l))).flatten) ∧
    (∀ i, (run false W5scanner W5splitter "2001:db8::/32" "80" "range_1" "TS" "TS2" W5fs).1
      (temp_name "range_1" "TS" i) = none) :=
  claim_C5 W5scanner W5splitter "2001:db8::/32" "80" "range_1" "TS" "TS2" W5fs
    (by decide) (fun _ => rfl)

/-! ## HTMLFetcher

`HTMLFetcher.fetch` builds the URL and paths, then inside one `try` block:
(1) opens the URL with mechanicalsoup and writes the rendered page;
(2) starts Chrome, loads the URL and saves a screenshot, with an inner
`except TimeoutException`.  The outer `except Exception` logs and returns.
The renderer collaborator is modelled by two oracles: the outcome of the
content-retrieval sub-operation and the outcome of the screenshot
sub-operation (which would apply were it attempted); Python control flow is
mirrored exactly, so the trace records what actually happened. -/

inductive ContentRes
  | ok
  | err
deriving DecidableEq, Repr

inductive ShotRes
  | ok
  | timeout
  | err
deriving DecidableEq, Repr

structure FetchTrace where
  htmlWritten : Bool
  screenshotAttempted : Bool
  screenshotWritten : Bool
  raisedToCaller : Bool
deriving DecidableEq, Repr

/-- `HTMLFetcher.fetch` control flow: a content-retrieval exception jumps to
the outer handler before the screenshot code; a screenshot timeout is caught
by the inner handler with the page file already written; any other screenshot
error is caught by the outer handler; nothing propagates to the caller. -/
def fetch (content : ContentRes) (shot : ShotRes) : FetchTrace :=
  match content with
  | .err => ⟨false, false, false, false⟩
  | .ok =>
    match shot with
    | .ok => ⟨true, true, true, false⟩
    | .timeout => ⟨true, true, false, false⟩
    | .err => ⟨true, true, false, false⟩

/-- `s.replace(old, new)` for single characters. -/
def pyReplace (old new : Char) (s : String) : String :=
  ⟨s.data.map (fun c => if c = old then new else c)⟩

/-- `ip.replace('.', '_').replace(':', '_')`. -/
def safe_ip (ip : String) : String := pyReplace ':' '_' (pyReplace '.' '_' ip)

/-- `host_dir = html_dir / safe_ip`, as path components under `html_dir`. -/
def host_dir (ip : String) : List String := [safe_ip ip]

/-- `host_dir / f"{safe_ip}_page_{port}_{ts}.html"`. -/
def html_file (ip : String) (port : Int) (ts : String) : List String :=
  [safe_ip ip, safe_ip ip ++ "_page_" ++ strOfInt port ++ "_" ++ ts ++ ".html"]

/-- `host_dir / f"{safe_ip}_screenshot_{port}_{ts}.png"`. -/
def screenshot_file (ip : String) (port : Int) (ts : String) : List String :=
  [safe_ip ip, safe_ip ip ++ "_screenshot_" ++ strOfInt port ++ "_" ++ ts ++ ".png"]

/-- **C3, amended** — the two renderer sub-operations are sequenced inside one
`try` block, dependent in one direction: `fetch` never raises to its caller;
when content retrieval succeeds the screenshot is always attempted, and a
screenshot timeout or error still leaves the persisted page artifact (so a
screenshot timeout with successful content retrieval yields at least one
artifact); but a content-retrieval failure jumps to the outer handler and
prevents the screenshot attempt entirely — the sub-operations are not
independent. -/
theorem claim_C3_amended (c : ContentRes) (s : ShotRes) :
    (fetch c s).raisedToCaller = false ∧
    (c = ContentRes.ok → (fetch c s).screenshotAttempted = true) ∧
    (c = ContentRes.ok → s ≠ ShotRes.ok →
      (fetch c s).htmlWritten = true ∧ (fetch c s).screenshotWritten = false) ∧
    (c = ContentRes.err →
      (fetch c s).screenshotAttempted = false ∧ (fetch c s).htmlWritten = false) := by
  cases c <;> cases s <;> simp [fetch]

/-- Witness for C3 (amended): content retrieval succeeds, the screenshot
times out — the page artifact persists and nothing is raised. -/
theorem claim_C3_amended_witness :
    (fetch ContentRes.ok ShotRes.timeout).raisedToCaller = false ∧
    (fetch ContentRes.ok ShotRes.timeout).htmlWritten = true ∧
    (fetch ContentRes.ok ShotRes.timeout).screenshotWritten = false :=
  ⟨(claim_C3_amended ContentRes.ok ShotRes.timeout).1,
    ((claim_C3_amended ContentRes.ok ShotRes.timeout).2.2.1 rfl (by decide)).1,
    ((claim_C3_amended ContentRes.ok ShotRes.timeout).2.2.1 rfl (by decide)).2⟩

/-- **C3, counterexample** — when content retrieval fails but the screenshot
sub-operation would succeed, the screenshot is never attempted (and no
artifact is written): a content-retrieval failure does prevent the screenshot
attempt, refuting the independence of the two sub-operations. -/
theorem claim_C3_counterexample :
    (fetch ContentRes.err ShotRes.ok).screenshotAttempted = false ∧
    (fetch ContentRes.err ShotRes.ok).htmlWritten = false ∧
    (fetch ContentRes.err ShotRes.ok).screenshotWritten = false := by
  refine ⟨rfl, rfl, rfl⟩

theorem str_eq_of_data {a b : String} (h : a.data = b.data) : a = b := by
  cases a
  cases b
  exact congrArg String.mk h

theorem file_name_port_inj (safe mid ts ext : String) (i j : Int)
    (h : safe ++ mid ++ strOfInt i ++ "_" ++ ts ++ ext
      = safe ++ mid ++ strOfInt j ++ "_" ++ ts ++ ext) : i = j := by
  have hd := congrArg String.data h
  simp only [str_data_append] at hd
  have h1 := List.append_cancel_right hd
  have h2 := List.append_cancel_right h1
  have h3 := List.append_cancel_right h2
  have h4 := List.append_cancel_left h3
  exact strOfInt_inj i j (str_eq_of_data h4)

/-- **C7, amended** — distinct ports always map to distinct page and
screenshot files, page files never collide with screenshot files, and hosts
whose *sanitized* names differ map to distinct directories and files; but the
sanitization `safe_ip` (replacing `.` and `:` with `_`) is not injective on
host addresses, so two distinct hosts can collide on the same directory and —
with equal port and capture timestamp — on the very same artifact paths (see
the counterexample). -/
theorem claim_C7_amended (ip1 ip2 : String) (p1 p2 : Int) (ts : String) :
    (safe_ip ip1 ≠ safe_ip ip2 →
      host_dir ip1 ≠ host_dir ip2 ∧ html_file ip1 p1 ts ≠ html_file ip2 p2 ts ∧
        screenshot_file ip1 p1 ts ≠ screenshot_file ip2 p2 ts) ∧
    (p1 ≠ p2 → html_file ip1 p1 ts ≠ html_file ip2 p2 ts ∧
      screenshot_file ip1 p1 ts ≠ screenshot_file ip2 p2 ts) ∧
    html_file ip1 p1 ts ≠ screenshot_file ip2 p2 ts := by
  refine ⟨?_, ?_, ?_⟩
  · intro hsafe
    refine ⟨?_, ?_, ?_⟩
    · intro he
      simp only [host_dir, List.cons.injEq, and_true] at he
      exact hsafe he
    · intro he
      simp only [html_file, List.cons.injEq, and_true] at he
      exact hsafe he.1
    · intro he
      simp only [screenshot_file, List.cons.injEq, and_true] at he
      exact hsafe he.1
  · intro hp
    constructor
    · intro he
      simp only [html_file, List.cons.injEq, and_true] at he
      obtain ⟨hs, hn⟩ := he
      rw [← hs] at hn
      exact hp (file_name_port_inj (safe_ip ip1) "_page_" ts ".html" p1 p2 hn)
    · intro he
      simp only [screenshot_file, List.cons.injEq, and_true] at he
      obtain ⟨hs, hn⟩ := he
      rw [← hs] at hn
      exact hp (file_name_port_inj (safe_ip ip1) "_screenshot_" ts ".png" p1 p2 hn)
  · intro he
    simp only [html_file, screenshot_file, List.cons.injEq, and_true] at he
    obtain ⟨_, hn⟩ := he
    have hd := congrArg (fun s => s.data.reverse.head?) hn
    simp only [str_data_append, List.reverse_append] at hd
    rw [(by decide : ".html".data.reverse = ['l', 'm', 't', 'h', '.']),
      (by decide : ".png".data.reverse = ['g', 'n', 'p', '.'])] at hd
    simp at hd

/-- Witness for C7 (amended) at concrete targets: distinct sanitized hosts
get distinct directories/files, distinct ports on one host get distinct
files, and a page file never equals a screenshot file. -/
theorem claim_C7_amended_witness :
    (host_dir "10.0.0.5" ≠ host_dir "10.0.0.6" ∧
      html_file "10.0.0.5" 80 "TS" ≠ html_file "10.0.0.6" 443 "TS" ∧
      screenshot_file "10.0.0.5" 80 "TS" ≠ screenshot_file "10.0.0.6" 443 "TS") ∧
    (html_file "10.0.0.5" 80 "TS" ≠ html_file "10.0.0.5" 443 "TS" ∧
      screenshot_file "10.0.0.5" 80 "TS" ≠ screenshot_file "10.0.0.5" 443 "TS") ∧
    html_file "10.0.0.5" 80 "TS" ≠ screenshot_file "10.0.0.5" 80 "TS" :=
  ⟨(claim_C7_amended "10.0.0.5" "10.0.0.6" 80 443 "TS").1 (by decide),
    (claim_C7_amended "10.0.0.5" "10.0.0.5" 80 443 "TS").2.1 (by decide),
    (claim_C7_amended "10.0.0.5" "10.0.0.5" 80 80 "TS").2.2⟩

/-- **C7, counterexample** — `::ffff:1.2.3.4` and `::ffff:1:2:3:4` are two
distinct valid IPv6 address literals (the first is the IPv4-mapped form of
`::ffff:102:304`), yet `safe_ip` sends both to `__ffff_1_2_3_4`: they share
the per-host directory, and with equal port and timestamp their page files
and screenshot files coincide, so distinct hosts are not mapped to distinct
per-host directories and distinct targets can write the same file. -/
theorem claim_C7_counterexample :
    ("::ffff:1.2.3.4" : String) ≠ "::ffff:1:2:3:4" ∧
    safe_ip "::ffff:1.2.3.4" = safe_ip "::ffff:1:2:3:4" ∧
    host_dir "::ffff:1.2.3.4" = host_dir "::ffff:1:2:3:4" ∧
    html_file "::ffff:1.2.3.4" 80 "TS" = html_file "::ffff:1:2:3:4" 80 "TS" ∧
    screenshot_file "::ffff:1.2.3.4" 80 "TS" = screenshot_file "::ffff:1:2:3:4" 80 "TS" := by
  refine ⟨by decide, by decide, by decide, by decide, by decide⟩

/-! ## Orchestrator (`main`)

`main` submits one `scanner.run` task per range; `as_completed` then, for each
range, parses the list file and fetches its targets, all inside a per-range
`try` whose `except Exception` logs the error and continues with the next
range.  Concurrency is abstracted away: the loop is embedded as a fold over
the ranges (the containment property is insensitive to completion order);
the per-target renderer outcomes come from the two fetch oracles. -/

structure RangeReport where
  range_str : String
  ok : Bool
  targets : List (String × Int)
  fetches : List FetchTrace
deriving DecidableEq, Repr

/-- The body of `main`'s per-range loop: run the scan, parse the list file
(the per-range `try` catches a parse exception and records an error report),
and fetch every target. -/
def processRange (dry : Bool) (scanner : ScannerOracle) (splitter : String → List String)
    (ports ts done_ts now : String) (summary_ok : Bool)
    (co : String × Int → ContentRes) (so : String × Int → ShotRes)
    (fs : Fs) (idx : Nat) (r : String) : RangeReport × Fs :=
  let res := run dry scanner splitter r ports ("range_" ++ strOfNat idx) ts done_ts fs
  match parse res.1 res.2.2 summary_ok now with
  | .error _ => ({ range_str := r, ok := false, targets := [], fetches := [] }, res.1)
  | .ok (targets, _) =>
    ({ range_str := r, ok := true, targets := targets,
        fetches := targets.map (fun t => fetch (co t) (so t)) }, res.1)

def mainStep (dry : Bool) (scanner : ScannerOracle) (splitter : String → List String)
    (ports ts done_ts now : String) (summary_ok : Bool)
    (co : String × Int → ContentRes) (so : String × Int → ShotRes)
    (acc : List RangeReport × Fs) (ir : Nat × String) : List RangeReport × Fs :=
  let pr := processRange dry scanner splitter ports ts done_ts now summary_ok co so
    acc.2 (ir.1 + 1) ir.2
  (acc.1 ++ [pr.1], pr.2)

/-- The orchestration loop of `main` over `enumerate(ranges, 1)`. -/
def mainLoop (dry : Bool) (scanner : ScannerOracle) (splitter : String → List String)
    (ports ts done_ts now : String) (summary_ok : Bool)
    (co : String × Int → ContentRes) (so : String × Int → ShotRes)
    (ranges : List String) (fs : Fs) : List RangeReport × Fs :=
  ranges.enum.foldl (mainStep dry scanner splitter ports ts done_ts now summary_ok co so)
    ([], fs)

theorem processRange_name (dry : Bool) (scanner : ScannerOracle)
    (splitter : String → List String) (ports ts done_ts now : String) (summary_ok : Bool)
    (co : String × Int → ContentRes) (so : String × Int → ShotRes)
    (fs : Fs) (idx : Nat) (r : String) :
    (processRange dry scanner splitter ports ts done_ts now summary_ok co so
      fs idx r).1.range_str = r := by
  unfold processRange
  cases hp : parse (run dry scanner splitter r ports ("range_" ++ strOfNat idx)
      ts done_ts fs).1
    (run dry scanner splitter r ports ("range_" ++ strOfNat idx) ts done_ts fs).2.2
    summary_ok now with
  | error e => simp [hp]
  | ok pr =>
    obtain ⟨t, s⟩ := pr
    simp [hp]

theorem mainFold_names (dry : Bool) (scanner : ScannerOracle)
    (splitter : String → List String) (ports ts done_ts now : String) (summary_ok : Bool)
    (co : String × Int → ContentRes) (so : String × Int → ShotRes)
    (l : List (Nat × String)) :
    ∀ (acc : List RangeReport) (fs : Fs),
      ((l.foldl (mainStep dry scanner splitter ports ts done_ts now summary_ok co so)
        (acc, fs)).1).map (fun rep => rep.range_str)
      = acc.map (fun rep => rep.range_str) ++ l.map (fun ir => ir.2) := by
  induction l with
  | nil => intro acc fs; simp
  | cons ir rest ih =>
    intro acc fs
    rw [List.foldl_cons]
    show ((rest.foldl (mainStep dry scanner splitter ports ts done_ts now summary_ok co so)
        (acc ++ [(processRange dry scanner splitter ports ts done_ts now summary_ok co so
          fs (ir.1 + 1) ir.2).1],
        (processRange dry scanner splitter ports ts done_ts now summary_ok co so
          fs (ir.1 + 1) ir.2).2)).1).map (fun rep => rep.range_str) = _
    rw [ih]
    simp [processRange_name]

theorem enum_pairs_fst (l : List String) (f : Nat → String) :
    (l.enum.map (fun p => (p.2, f p.1))).map (fun x => x.1) = l := by
  rw [List.map_map]
  conv_rhs => rw [← List.enum_map_snd l]
  rfl

/-- **C8, confirmed** — failure containment at every granularity:
(1) `HTMLFetcher.fetch` never raises to its caller, for every renderer
outcome of both sub-operations; (2) a scanner invocation failure for one
sub-range does not terminate the run — `run` invokes every sub-range (or the
single unsplit range) in order, whatever the scanner oracle's failures; and
(3) the orchestrator's loop yields exactly one report per submitted range, in
order, whatever each range's parse and fetch outcomes — a range whose
processing raises is logged as a failed report and the remaining ranges are
still processed. -/
theorem claim_C8 (scanner : ScannerOracle) (splitter : String → List String)
    (ip_range ports pfx ts done_ts now : String) (summary_ok : Bool)
    (co : String × Int → ContentRes) (so : String × Int → ShotRes)
    (ranges : List String) (fs : Fs) (dry : Bool) :
    (∀ c s, (fetch c s).raisedToCaller = false) ∧
    ((run false scanner splitter ip_range ports pfx ts done_ts fs).2.1
      = if 1 < (splitter ip_range).length then splitter ip_range else [ip_range]) ∧
    ((mainLoop dry scanner splitter ports ts done_ts now summary_ok co so ranges fs).1.map
      (fun rep => rep.range_str) = ranges) := by
  refine ⟨?_, ?_, ?_⟩
  · intro c s
    cases c <;> cases s <;> rfl
  · by_cases hN : 1 < (splitter ip_range).length
    · rw [if_pos hN]
      unfold run
      simp only [if_pos hN, Bool.false_eq_true, reduceIte]
      rw [scan_fold_invs]
      simp only [List.nil_append]
      exact enum_pairs_fst (splitter ip_range) (fun i => temp_name pfx ts (i + 1))
    · rw [if_neg hN]
      unfold run
      simp only [if_neg hN]
      cases hsc : scanner ip_range <;> simp [run_single_range, hsc]
  · unfold mainLoop
    rw [mainFold_names]
    simp only [List.map_nil, List.nil_append]
    exact List.enum_map_snd ranges

end MasscanWeb
